import Mathlib

/-!
Shallow embedding of the envelope-based anomaly detector in
`src/AI_Academy_7_github/module_7_notebook.ipynb`.

Conventions of the embedding:
* Python floats are modelled as real numbers (`ℝ`).
* numpy's NaN propagation is modelled with `Option ℝ`: `none` stands for NaN.
  `np.mean` / `np.std` of an empty array yield NaN (with a RuntimeWarning,
  not an exception), and every float comparison involving NaN is false.
* The scipy kernels (`butter`/`filtfilt`, `hilbert`, `st.norm.ppf`) are not
  part of this repository; where a claim depends on them they are modelled
  from the spec (see the doc comments of `bandpass_filter`,
  `create_single_envelope`, `stdNormCDF`, `normPPF`).
* The notebook globals `sampling_rate`, `CONFIDENCE_LVL` and `train_data`
  become explicit constants/parameters: `check_parts` receives the
  confidence level and `train_envelope` receives the training corpus as an
  argument, with no other change to the control flow.
-/

open Filter Topology

noncomputable section

namespace Module7

/-- Notebook global `sampling_rate = 25600`. -/
def sampling_rate : ℝ := 25600

/-- Notebook global `CONFIDENCE_LVL = 0.95`. -/
def CONFIDENCE_LVL : ℝ := 0.95

/-- Error taxonomy of spec §7.  The notebook itself raises none of these;
they can only arise from the spec-modelled scipy validation in
`bandpass_filter`. -/
inductive NotebookError where
  | InvalidParameter : NotebookError
  | EmptyCorpus : NotebookError
  | EmptyReference : NotebookError
  | LengthMismatch : NotebookError
deriving DecidableEq

/-- Arithmetic mean `sum / N` of a list of reals; this is the value
`np.mean` returns on a non-empty array.  (On an empty list this Lean
expression is the junk value `0/0 = 0`; the NaN-faithful version is
`npMean` below.) -/
def realMean (l : List ℝ) : ℝ := l.sum / l.length

/-- Population variance `(1/N) * Σ (x - mean)²`; numpy's `np.var` with its
default `ddof=0`. -/
def realVar (l : List ℝ) : ℝ := (l.map (fun x => (x - realMean l) ^ 2)).sum / l.length

/-- Population standard deviation, the value `np.std` returns on a
non-empty array: the square root of the mean squared deviation
(`ddof=0` default). -/
def realStd (l : List ℝ) : ℝ := Real.sqrt (realVar l)

/-- `np.mean` with NaN modelled as `none`: the mean of an empty array is
NaN (numpy emits a RuntimeWarning and continues). -/
def npMean (l : List ℝ) : Option ℝ := if l.length = 0 then none else some (realMean l)

/-- `np.std` with NaN modelled as `none`: the standard deviation of an
empty array is NaN. -/
def npStd (l : List ℝ) : Option ℝ := if l.length = 0 then none else some (realStd l)

/-- Modelled from the spec: the standard normal CDF Φ underlying scipy's
`st.norm.ppf`, which is not part of this repository.  It is the CDF of the
Gaussian measure with mean 0 and variance 1. -/
def stdNormCDF (x : ℝ) : ℝ :=
  ProbabilityTheory.cdf (ProbabilityTheory.gaussianReal 0 1) x

/-- Modelled from the spec: scipy's `st.norm.ppf`, the standard normal
quantile function Φ⁻¹ (spec §4.5 step 2), as the generalized inverse
`inf \x7b x | p ≤ Φ x \x7d` of the CDF. -/
def normPPF (p : ℝ) : ℝ := sInf {x : ℝ | p ≤ stdNormCDF x}

/-- Modelled from the spec: `bandpass_filter` (notebook cell 11) delegates
to scipy's `butter`/`filtfilt`, whose code is not in this repository.
Per spec §4.1 the call fails with InvalidParameter when `low ≥ high`, when
`high ≥` the Nyquist frequency `sampling_rate / 2`, or when the signal is
too short for the chosen order; for a bandpass Butterworth filter of order
`n` the coefficient arrays have `2n+1` taps and `filtfilt` demands a signal
strictly longer than its default pad length `3·(2n+1)`.  The spec pins only
these validity conditions together with output length = input length; no
claim depends on the filtered sample values, so the model returns the
samples unchanged on success. -/
def bandpass_filter (data : List ℝ) (lowcut highcut : ℝ) (order : ℕ := 4) :
    Except NotebookError (List ℝ) :=
  if lowcut ≥ highcut ∨ highcut ≥ sampling_rate / 2 ∨ data.length ≤ 3 * (2 * order + 1) then
    .error .InvalidParameter
  else
    .ok data

/-- Notebook `preprocessing`: bandpass filter with `lowcut=1000`,
`highcut=10000` (and the default order 4), then `np.absolute`.  A scipy
exception propagates to the caller, modelled by `Except`. -/
def preprocessing (input_data : List ℝ) : Except NotebookError (List ℝ) :=
  (bandpass_filter input_data 1000 10000).map (fun l => l.map (fun x => |x|))

/-- Modelled from the spec: `create_single_envelope` (notebook cell 11)
calls scipy's `hilbert`, which is not in this repository, and takes the
magnitude of the analytic signal.  Spec §4.3 pins the guarantees: the
envelope is non-negative, has the input's length, and is zero on the zero
signal; the model keeps the pointwise magnitude `|x|`, which satisfies all
of them, and no claim depends on the envelope values beyond these
guarantees and exact sharing between calls. -/
def create_single_envelope (input_signal : List ℝ) : List ℝ :=
  input_signal.map (fun x => |x|)

/-- `np.mean(single_envelopes, axis=0)` on a non-empty list of equal-length
rows: the elementwise arithmetic mean, one output entry per column of the
first row.  (The notebook only ever reaches this with equal-length
envelopes; on an empty list the notebook's call returns NaN, handled by the
caller `train_envelope`.) -/
def mean_axis0 (ls : List (List ℝ)) : List ℝ :=
  match ls with
  | [] => []
  | first :: _ =>
    (List.range first.length).map (fun j => (ls.map (fun l => l.getD j 0)).sum / ls.length)

/-- The `while i < n_parts` loop of `train_envelope`: preprocess each
signal in order and take its envelope, propagating the first scipy
exception. -/
def envelopes_of : List (List ℝ) → Except NotebookError (List (List ℝ))
  | [] => .ok []
  | d :: rest =>
    match preprocessing d with
    | .error e => .error e
    | .ok sig =>
      match envelopes_of rest with
      | .error e => .error e
      | .ok envs => .ok (create_single_envelope sig :: envs)

/-- Notebook `train_envelope` (cell 11) with the global `train_data` lifted
to a parameter.  It clamps `n_parts` to the corpus size (printing a notice,
see `train_envelope_notice`), builds one envelope per selected signal in
stored order, and combines them with `np.mean(..., axis=0)`.  With zero
envelopes numpy returns the NaN scalar (RuntimeWarning, no exception),
modelled as `none`. -/
def train_envelope (train_data : List (List ℝ)) (n_parts : ℕ) :
    Except NotebookError (Option (List ℝ)) :=
  match envelopes_of (train_data.take (min n_parts train_data.length)) with
  | .error e => .error e
  | .ok envs => .ok (if envs.isEmpty then none else some (mean_axis0 envs))

/-- Condition under which `train_envelope` prints its informational notice
`Only \x7bn_files\x7d files in directory!`: exactly when the requested count
exceeds the corpus size.  (The printing itself is a side effect outside the
embedding.) -/
def train_envelope_notice (train_data : List (List ℝ)) (n_parts : ℕ) : Bool :=
  decide (train_data.length < n_parts)

/-- Float strict comparison with NaN semantics: `a > b` holds iff both
operands are actual numbers and the first exceeds the second; any
comparison involving NaN (`none`) is false. -/
def nanGt (a b : Option ℝ) : Prop := ∃ x y, a = some x ∧ b = some y ∧ y < x

instance (a b : Option ℝ) : Decidable (nanGt a b) := Classical.propDecidable _

/-- Threshold computed by `check_parts` (cell 13):
`mean_envelope + z * std_envelope` with `z = st.norm.ppf((1+confidence)/2)`.
NaN (empty envelope) propagates into the threshold. -/
def check_threshold (envelope : List ℝ) (confidence : ℝ) : Option ℝ :=
  match npMean envelope, npStd envelope with
  | some m, some s => some (m + normPPF ((1 + confidence) / 2) * s)
  | _, _ => none

/-- The `for idx, test_part in enumerate(data_test_parts)` loop of
`check_parts`, carrying the running index: a test part whose mean exceeds
the threshold is appended to both result lists. -/
def checkPartsAux (threshold : Option ℝ) : List (List ℝ) → ℕ → List (List ℝ) × List ℕ
  | [], _ => ([], [])
  | t :: rest, idx =>
    let r := checkPartsAux threshold rest (idx + 1)
    if nanGt (npMean t) threshold then (t :: r.1, idx :: r.2) else r

/-- Notebook `check_parts` (cell 13) with the global `CONFIDENCE_LVL`
lifted to the parameter `confidence`: computes the reference threshold from
the envelope's mean and standard deviation and collects every test part
(and its index) whose mean strictly exceeds it. -/
def check_parts (data_test_parts : List (List ℝ)) (envelope : List ℝ) (confidence : ℝ) :
    List (List ℝ) × List ℕ :=
  checkPartsAux (check_threshold envelope confidence) data_test_parts 0

/-! ### Basic lemmas about the statistics -/

lemma npMean_of_ne_nil (l : List ℝ) (h : l ≠ []) : npMean l = some (realMean l) := by
  simp [npMean, List.length_eq_zero, h]

lemma npStd_of_ne_nil (l : List ℝ) (h : l ≠ []) : npStd l = some (realStd l) := by
  simp [npStd, List.length_eq_zero, h]

lemma realVar_nonneg (l : List ℝ) : 0 ≤ realVar l := by
  apply div_nonneg
  · apply List.sum_nonneg
    intro x hx
    rcases List.mem_map.1 hx with ⟨y, _, rfl⟩
    positivity
  · exact Nat.cast_nonneg _

lemma realStd_nonneg (l : List ℝ) : 0 ≤ realStd l := Real.sqrt_nonneg _

lemma check_threshold_of_ne_nil (E : List ℝ) (c : ℝ) (hE : E ≠ []) :
    check_threshold E c = some (realMean E + normPPF ((1 + c) / 2) * realStd E) := by
  unfold check_threshold
  rw [npMean_of_ne_nil E hE, npStd_of_ne_nil E hE]

lemma check_threshold_of_nil (c : ℝ) : check_threshold [] c = none := by
  unfold check_threshold
  simp [npMean, npStd]

/-! ### Lemmas about `mean_axis0` -/

lemma map_getD_range (l : List ℝ) :
    (List.range l.length).map (fun j => l.getD j 0) = l := by
  apply List.ext_getElem
  · simp
  · intro i h1 h2
    simp only [List.getElem_map, List.getElem_range]
    exact List.getD_eq_getElem l 0 h2

lemma mean_axis0_singleton (l : List ℝ) : mean_axis0 [l] = l := by
  unfold mean_axis0
  simp only [List.map_cons, List.map_nil, List.sum_cons, List.sum_nil, List.length_cons,
    List.length_nil, Nat.cast_one, add_zero, div_one, Nat.zero_add]
  exact map_getD_range l

/-! ### Lemmas about the spec-modelled normal quantile -/

lemma normPPF_set_nonempty (q : ℝ) (hq : q < 1) : {x : ℝ | q ≤ stdNormCDF x}.Nonempty := by
  have h := ProbabilityTheory.tendsto_cdf_atTop (ProbabilityTheory.gaussianReal 0 1)
  have h2 : ∀ᶠ x in atTop, q < stdNormCDF x := h.eventually (eventually_gt_nhds hq)
  rcases h2.exists with ⟨x, hx⟩
  exact ⟨x, le_of_lt hx⟩

lemma normPPF_set_bddBelow (p : ℝ) (hp : 0 < p) : BddBelow {x : ℝ | p ≤ stdNormCDF x} := by
  have h := ProbabilityTheory.tendsto_cdf_atBot (ProbabilityTheory.gaussianReal 0 1)
  have h2 : ∀ᶠ x in atBot, stdNormCDF x < p := h.eventually (eventually_lt_nhds hp)
  rcases h2.exists with ⟨B, hB⟩
  refine ⟨B, fun x hx => le_of_not_lt fun hxB => ?_⟩
  have hmono : stdNormCDF x ≤ stdNormCDF B :=
    ProbabilityTheory.monotone_cdf (ProbabilityTheory.gaussianReal 0 1) (le_of_lt hxB)
  exact absurd hx (not_le.2 (lt_of_le_of_lt hmono hB))

lemma normPPF_mono (p q : ℝ) (hp : 0 < p) (hq : q < 1) (hpq : p ≤ q) :
    normPPF p ≤ normPPF q := by
  apply csInf_le_csInf (normPPF_set_bddBelow p hp) (normPPF_set_nonempty q hq)
  intro x hx
  exact le_trans hpq hx

/-! ### Lemmas about the classification loop -/

lemma nanGt_none (a : Option ℝ) : ¬ nanGt a none := by
  rintro ⟨x, y, _, hy, _⟩
  cases hy

lemma nanGt_some_iff (a : Option ℝ) (t : ℝ) :
    nanGt a (some t) ↔ ∃ m, a = some m ∧ t < m := by
  constructor
  · rintro ⟨x, y, hx, hy, hlt⟩
    cases hy
    exact ⟨x, hx, hlt⟩
  · rintro ⟨m, hm, hlt⟩
    exact ⟨m, t, hm, rfl, hlt⟩

lemma checkPartsAux_snd_mem (thr : Option ℝ) :
    ∀ (T : List (List ℝ)) (k i : ℕ),
      i ∈ (checkPartsAux thr T k).2 ↔
        ∃ j, j < T.length ∧ i = k + j ∧ nanGt (npMean (T.getD j [])) thr
  | [], k, i => by simp [checkPartsAux]
  | t :: rest, k, i => by
    have ih := checkPartsAux_snd_mem thr rest (k + 1) i
    simp only [checkPartsAux]
    by_cases h : nanGt (npMean t) thr
    · rw [if_pos h]
      simp only [List.mem_cons]
      constructor
      · rintro (rfl | hi)
        · exact ⟨0, by simp, by simp, by simpa using h⟩
        · rcases ih.1 hi with ⟨j, hj, rfl, hP⟩
          exact ⟨j + 1, by simpa using hj, by omega, by simpa using hP⟩
      · rintro ⟨j, hj, rfl, hP⟩
        cases j with
        | zero => left; omega
        | succ j' =>
          right
          exact ih.2 ⟨j', by simpa using hj, by omega, by simpa using hP⟩
    · rw [if_neg h]
      rw [ih]
      constructor
      · rintro ⟨j, hj, rfl, hP⟩
        exact ⟨j + 1, by simpa using hj, by omega, by simpa using hP⟩
      · rintro ⟨j, hj, rfl, hP⟩
        cases j with
        | zero => exact absurd (by simpa using hP) h
        | succ j' => exact ⟨j', by simpa using hj, by omega, by simpa using hP⟩

lemma checkPartsAux_snd_sorted (thr : Option ℝ) :
    ∀ (T : List (List ℝ)) (k : ℕ), List.Chain' (· < ·) (checkPartsAux thr T k).2
  | [], k => by simp [checkPartsAux]
  | t :: rest, k => by
    have ih := checkPartsAux_snd_sorted thr rest (k + 1)
    simp only [checkPartsAux]
    by_cases h : nanGt (npMean t) thr
    · rw [if_pos h]
      refine List.chain'_cons'.2 ⟨fun y hy => ?_, ih⟩
      have hmem : y ∈ (checkPartsAux thr rest (k + 1)).2 := List.mem_of_mem_head? hy
      rcases (checkPartsAux_snd_mem thr rest (k + 1) y).1 hmem with ⟨j, _, rfl, _⟩
      omega
    · rw [if_neg h]
      exact ih

lemma checkPartsAux_fst (thr : Option ℝ) :
    ∀ (T : List (List ℝ)) (k : ℕ),
      (checkPartsAux thr T k).1 = (checkPartsAux thr T k).2.map (fun i => T.getD (i - k) [])
  | [], k => by simp [checkPartsAux]
  | t :: rest, k => by
    have ih := checkPartsAux_fst thr rest (k + 1)
    have hcong : ∀ i ∈ (checkPartsAux thr rest (k + 1)).2,
        rest.getD (i - (k + 1)) [] = (t :: rest).getD (i - k) [] := by
      intro i hi
      rcases (checkPartsAux_snd_mem thr rest (k + 1) i).1 hi with ⟨j, _, rfl, _⟩
      have h1 : k + 1 + j - k = j + 1 := by omega
      have h2 : k + 1 + j - (k + 1) = j := by omega
      rw [h1, h2, List.getD_cons_succ]
    simp only [checkPartsAux]
    by_cases h : nanGt (npMean t) thr
    · rw [if_pos h]
      simp only [List.map_cons]
      rw [Nat.sub_self, List.getD_cons_zero]
      rw [ih, List.map_congr_left hcong]
    · rw [if_neg h]
      rw [ih, List.map_congr_left hcong]

lemma checkPartsAux_none :
    ∀ (T : List (List ℝ)) (k : ℕ), checkPartsAux none T k = ([], [])
  | [], _ => rfl
  | t :: rest, k => by
    simp only [checkPartsAux]
    rw [if_neg (nanGt_none (npMean t))]
    exact checkPartsAux_none rest (k + 1)

lemma check_parts_mem_iff (T : List (List ℝ)) (E : List ℝ) (c : ℝ) (i : ℕ) :
    i ∈ (check_parts T E c).2 ↔
      i < T.length ∧ nanGt (npMean (T.getD i [])) (check_threshold E c) := by
  unfold check_parts
  rw [checkPartsAux_snd_mem]
  constructor
  · rintro ⟨j, hj, rfl, hP⟩
    rw [Nat.zero_add]
    exact ⟨hj, hP⟩
  · rintro ⟨hi, hP⟩
    exact ⟨i, hi, by omega, hP⟩

lemma check_parts_fst_eq (T : List (List ℝ)) (E : List ℝ) (c : ℝ) :
    (check_parts T E c).1 = (check_parts T E c).2.map (fun i => T.getD i []) := by
  unfold check_parts
  rw [checkPartsAux_fst]
  apply List.map_congr_left
  intro i _
  simp

/-! ### Claim theorems -/

/-- C1: for every non-empty reference envelope and confidence level in (0,1),
`check_parts` computes the threshold `mean(E) + z * std(E)` with
`z = Φ⁻¹((1+c)/2)` (the spec-modelled standard normal quantile `normPPF`),
flags a test part exactly when its mean value strictly exceeds that
threshold, and records each flagged signal together with its original
index. -/
theorem check_parts_spec (T : List (List ℝ)) (E : List ℝ) (c : ℝ)
    (hE : E ≠ []) (hc0 : 0 < c) (hc1 : c < 1) :
    check_threshold E c = some (realMean E + normPPF ((1 + c) / 2) * realStd E) ∧
    (∀ i, i ∈ (check_parts T E c).2 ↔
      i < T.length ∧
        ∃ m, npMean (T.getD i []) = some m ∧
          realMean E + normPPF ((1 + c) / 2) * realStd E < m) ∧
    (check_parts T E c).1 = (check_parts T E c).2.map (fun i => T.getD i []) := by
  have ht := check_threshold_of_ne_nil E c hE
  refine ⟨ht, fun i => ?_, check_parts_fst_eq T E c⟩
  rw [check_parts_mem_iff, ht, nanGt_some_iff]

/-- Witness for C1 at the envelope `[1]`, confidence `1/2` and the empty
test corpus. -/
theorem check_parts_spec_witness :
    (([(1:ℝ)] : List ℝ) ≠ [] ∧ (0:ℝ) < 1 / 2 ∧ (1:ℝ) / 2 < 1) ∧
    (check_threshold [(1:ℝ)] (1 / 2) =
        some (realMean [(1:ℝ)] + normPPF ((1 + 1 / 2) / 2) * realStd [(1:ℝ)]) ∧
      (∀ i, i ∈ (check_parts ([] : List (List ℝ)) [(1:ℝ)] (1 / 2)).2 ↔
        i < ([] : List (List ℝ)).length ∧
          ∃ m, npMean (([] : List (List ℝ)).getD i []) = some m ∧
            realMean [(1:ℝ)] + normPPF ((1 + 1 / 2) / 2) * realStd [(1:ℝ)] < m) ∧
      (check_parts ([] : List (List ℝ)) [(1:ℝ)] (1 / 2)).1 =
        (check_parts ([] : List (List ℝ)) [(1:ℝ)] (1 / 2)).2.map
          (fun i => ([] : List (List ℝ)).getD i [])) :=
  ⟨⟨by simp, by norm_num, by norm_num⟩,
    check_parts_spec [] [(1:ℝ)] (1 / 2) (by simp) (by norm_num) (by norm_num)⟩

/-- C2: holding envelope and test corpus fixed, raising the confidence
level within (0,1) raises (or keeps) the threshold, and the indices flagged
at the higher confidence are a subset of those flagged at the lower one. -/
theorem check_parts_confidence_mono (T : List (List ℝ)) (E : List ℝ) (c1 c2 : ℝ)
    (hc1 : 0 < c1) (hc2 : c2 < 1) (h12 : c1 ≤ c2) (hE : E ≠ []) :
    (∃ t1 t2, check_threshold E c1 = some t1 ∧ check_threshold E c2 = some t2 ∧ t1 ≤ t2) ∧
    ∀ i, i ∈ (check_parts T E c2).2 → i ∈ (check_parts T E c1).2 := by
  have ht1 := check_threshold_of_ne_nil E c1 hE
  have ht2 := check_threshold_of_ne_nil E c2 hE
  have hz : normPPF ((1 + c1) / 2) ≤ normPPF ((1 + c2) / 2) :=
    normPPF_mono _ _ (by linarith) (by linarith) (by linarith)
  have hle : realMean E + normPPF ((1 + c1) / 2) * realStd E ≤
      realMean E + normPPF ((1 + c2) / 2) * realStd E := by
    have := mul_le_mul_of_nonneg_right hz (realStd_nonneg E)
    linarith
  refine ⟨⟨_, _, ht1, ht2, hle⟩, fun i hi => ?_⟩
  rw [check_parts_mem_iff] at hi ⊢
  rcases hi with ⟨hlen, hgt⟩
  rw [ht2, nanGt_some_iff] at hgt
  rcases hgt with ⟨m, hm, hlt⟩
  refine ⟨hlen, ?_⟩
  rw [ht1, nanGt_some_iff]
  exact ⟨m, hm, lt_of_le_of_lt hle hlt⟩

/-- Witness for C2 at the envelope `[1]`, confidences `1/2 ≤ 3/4` and the
empty test corpus. -/
theorem check_parts_confidence_mono_witness :
    ((0:ℝ) < 1 / 2 ∧ (3:ℝ) / 4 < 1 ∧ (1:ℝ) / 2 ≤ 3 / 4 ∧ ([(1:ℝ)] : List ℝ) ≠ []) ∧
    ((∃ t1 t2, check_threshold [(1:ℝ)] (1 / 2) = some t1 ∧
        check_threshold [(1:ℝ)] (3 / 4) = some t2 ∧ t1 ≤ t2) ∧
      ∀ i, i ∈ (check_parts ([] : List (List ℝ)) [(1:ℝ)] (3 / 4)).2 →
        i ∈ (check_parts ([] : List (List ℝ)) [(1:ℝ)] (1 / 2)).2) :=
  ⟨⟨by norm_num, by norm_num, by norm_num, by simp⟩,
    check_parts_confidence_mono [] [(1:ℝ)] (1 / 2) (3 / 4) (by norm_num) (by norm_num)
      (by norm_num) (by simp)⟩

/-- C3 counterexample: on the empty training corpus `train_envelope` does
not fail with EmptyCorpus (or any other error); numpy's mean of the empty
envelope list is the NaN scalar (a RuntimeWarning, not an exception), so
the call returns it, modelled as `.ok none`. -/
theorem train_envelope_empty_counterexample :
    train_envelope ([] : List (List ℝ)) 5 = .ok none ∧
    ∀ e : NotebookError, train_envelope ([] : List (List ℝ)) 5 ≠ .error e :=
  ⟨rfl, fun e h => by simp [train_envelope, envelopes_of] at h⟩

/-- C3 amended: for every requested count `n`, `train_envelope` applied to
an empty training corpus returns the NaN result `.ok none` instead of
failing. -/
theorem train_envelope_empty (n : ℕ) :
    train_envelope ([] : List (List ℝ)) n = .ok none := by
  simp [train_envelope, envelopes_of]

/-- C4 (spec-modelled): `bandpass_filter` fails with InvalidParameter
whenever the lower cutoff is at least the upper cutoff, the upper cutoff is
at least the Nyquist frequency `sampling_rate / 2`, or the signal is too
short for the chosen order; no filtered signal is returned on such
inputs. -/
theorem bandpass_filter_invalid (data : List ℝ) (lowcut highcut : ℝ) (order : ℕ)
    (h : highcut ≤ lowcut ∨ sampling_rate / 2 ≤ highcut ∨
      data.length ≤ 3 * (2 * order + 1)) :
    bandpass_filter data lowcut highcut order = .error .InvalidParameter := by
  rw [bandpass_filter, if_pos]
  rcases h with h | h | h
  · exact Or.inl h
  · exact Or.inr (Or.inl h)
  · exact Or.inr (Or.inr h)

/-- Witness for C4: a one-sample signal is too short for an order-4
bandpass filter. -/
theorem bandpass_filter_invalid_witness :
    (([(0:ℝ)] : List ℝ).length ≤ 3 * (2 * 4 + 1)) ∧
    bandpass_filter [(0:ℝ)] 1000 10000 4 = .error .InvalidParameter :=
  ⟨by simp, bandpass_filter_invalid [(0:ℝ)] 1000 10000 4 (Or.inr (Or.inr (by simp)))⟩

/-- C5 counterexample: with an empty reference envelope `check_parts` does
not fail with EmptyReference; numpy's mean/std of the empty envelope are
NaN, every comparison against the NaN threshold is false, and the call
returns empty results. -/
theorem check_parts_empty_ref_counterexample :
    check_parts [[(1:ℝ)]] [] (1 / 2) = ([], []) := by
  rw [check_parts, check_threshold_of_nil, checkPartsAux_none]

/-- C5 amended: for every test corpus and confidence level, `check_parts`
with an empty reference envelope returns `([], [])` (NaN threshold, nothing
flagged) instead of failing. -/
theorem check_parts_empty_reference (T : List (List ℝ)) (c : ℝ) :
    check_parts T [] c = ([], []) := by
  rw [check_parts, check_threshold_of_nil, checkPartsAux_none]

/-- C6: requesting more training signals than the corpus holds triggers the
informational notice and yields exactly the reference envelope of a call
with `n` equal to the corpus size. -/
theorem train_envelope_clamp (td : List (List ℝ)) (n : ℕ) (hne : td ≠ [])
    (hn : td.length < n) :
    train_envelope_notice td n = true ∧
    train_envelope td n = train_envelope td td.length := by
  constructor
  · exact decide_eq_true hn
  · unfold train_envelope
    rw [min_eq_right (le_of_lt hn), min_self]

/-- Witness for C6: a one-signal corpus with `n = 2`. -/
theorem train_envelope_clamp_witness :
    (([[(1:ℝ)]] : List (List ℝ)) ≠ [] ∧ ([[(1:ℝ)]] : List (List ℝ)).length < 2) ∧
    (train_envelope_notice [[(1:ℝ)]] 2 = true ∧
      train_envelope [[(1:ℝ)]] 2 = train_envelope [[(1:ℝ)]] ([[(1:ℝ)]] : List (List ℝ)).length) :=
  ⟨⟨by simp, by simp⟩, train_envelope_clamp [[(1:ℝ)]] 2 (by simp) (by simp)⟩

/-- C7: the index list returned by `check_parts` is strictly increasing,
every returned index is a position of the test corpus, and the k-th flagged
signal is the corpus entry at the k-th returned index, so results follow
the original input order. -/
theorem check_parts_order (T : List (List ℝ)) (E : List ℝ) (c : ℝ) :
    List.Chain' (· < ·) (check_parts T E c).2 ∧
    (∀ i ∈ (check_parts T E c).2, i < T.length) ∧
    (check_parts T E c).1 = (check_parts T E c).2.map (fun i => T.getD i []) := by
  refine ⟨checkPartsAux_snd_sorted _ T 0, ?_, check_parts_fst_eq T E c⟩
  intro i hi
  exact ((check_parts_mem_iff T E c i).1 hi).1

/-- C8: the classification of a signal depends only on the signal itself,
the reference envelope and the confidence level — two runs over different
test corpora that contain the same signal flag it identically, because the
threshold `check_threshold E c` mentions no test data (and `train_envelope`
is a function of the training corpus and `n` alone). -/
theorem check_parts_test_independent (T1 T2 : List (List ℝ)) (E : List ℝ) (c : ℝ)
    (i j : ℕ) (hi : i < T1.length) (hj : j < T2.length)
    (hs : T1.getD i [] = T2.getD j []) :
    (i ∈ (check_parts T1 E c).2 ↔ j ∈ (check_parts T2 E c).2) := by
  rw [check_parts_mem_iff, check_parts_mem_iff, hs]
  simp [hi, hj]

/-- Witness for C8: the signal `[2]` at position 0 of two (identical)
one-signal corpora. -/
theorem check_parts_test_independent_witness :
    ((0 < ([[(2:ℝ)]] : List (List ℝ)).length) ∧
      ([[(2:ℝ)]] : List (List ℝ)).getD 0 [] = ([[(2:ℝ)]] : List (List ℝ)).getD 0 []) ∧
    (0 ∈ (check_parts [[(2:ℝ)]] [(1:ℝ)] (1 / 2)).2 ↔
      0 ∈ (check_parts [[(2:ℝ)]] [(1:ℝ)] (1 / 2)).2) :=
  ⟨⟨by simp, rfl⟩,
    check_parts_test_independent [[(2:ℝ)]] [[(2:ℝ)]] [(1:ℝ)] (1 / 2) 0 0 (by simp)
      (by simp) rfl⟩

/-- C9: on a corpus with at least one signal, `train_envelope` with `n = 1`
returns exactly the preprocessed-and-enveloped first signal — averaging a
single envelope is the identity. -/
theorem train_envelope_one (s : List ℝ) (rest : List (List ℝ)) (p : List ℝ)
    (hp : preprocessing s = .ok p) :
    train_envelope (s :: rest) 1 = .ok (some (create_single_envelope p)) := by
  unfold train_envelope
  have hmin : min 1 (s :: rest).length = 1 := min_eq_left (by simp)
  rw [hmin]
  simp [envelopes_of, hp, mean_axis0_singleton]

/-- Witness for C9: a 28-sample zero signal (long enough for the order-4
filter) as the only training signal. -/
theorem train_envelope_one_witness :
    (preprocessing (List.replicate 28 (0:ℝ)) =
      .ok ((List.replicate 28 (0:ℝ)).map (fun x => |x|))) ∧
    train_envelope [List.replicate 28 (0:ℝ)] 1 =
      .ok (some (create_single_envelope ((List.replicate 28 (0:ℝ)).map (fun x => |x|)))) := by
  have hp : preprocessing (List.replicate 28 (0:ℝ)) =
      .ok ((List.replicate 28 (0:ℝ)).map (fun x => |x|)) := by
    rw [preprocessing, bandpass_filter, if_neg]
    · rfl
    · push_neg
      refine ⟨by norm_num, by norm_num [sampling_rate], by simp⟩
  exact ⟨hp, train_envelope_one (List.replicate 28 (0:ℝ)) [] _ hp⟩

/-- C10: the standard deviation entering the threshold is the population
standard deviation (numpy's `ddof=0` default): on a non-empty envelope its
square is the mean of the squared deviations from the mean. -/
theorem npStd_population (E : List ℝ) (hE : E ≠ []) :
    npStd E = some (realStd E) ∧
    realStd E ^ 2 = (E.map (fun x => (x - realMean E) ^ 2)).sum / E.length :=
  ⟨npStd_of_ne_nil E hE, by rw [realStd, Real.sq_sqrt (realVar_nonneg E), realVar]⟩

/-- Witness for C10 at the envelope `[1, 3]`. -/
theorem npStd_population_witness :
    (([1, 3] : List ℝ) ≠ []) ∧
    (npStd [1, 3] = some (realStd [1, 3]) ∧
      realStd [1, 3] ^ 2 =
        (([1, 3] : List ℝ).map (fun x => (x - realMean [1, 3]) ^ 2)).sum /
          ([1, 3] : List ℝ).length) :=
  ⟨by simp, npStd_population [1, 3] (by simp)⟩

end Module7

end
